import Mathlib

/-!
Verification of the safe-serialization subsystem and the process-wide
instance registry of `agentops/helpers.py`.

Python runtime values reaching these helpers are modelled by the inductive
type `Value`: JSON primitives, `uuid.UUID` values, the `Ellipsis` sentinel,
lists, string-keyed dicts, and opaque objects carrying the results of the
five serialization capability methods probed by `safe_serialize.default`
(`model_dump_json`, `to_json`, `json`, `to_dict`, `dict`); a field is `none`
when `hasattr` is false for that method and `some r` when calling the
method returns `r`.
-/

namespace Helpers

/-- A Python runtime value as traversed by `filter_unjsonable` and
`safe_serialize`.  `vObj` is an opaque object: `qualname` is
`type(o).__qualname__`, and the five remaining fields model the probed
serialization capabilities (string-returning ones first, dict-returning
ones last). -/
inductive Value where
  | vNone
  | vBool (b : Bool)
  | vInt (n : Int)
  | vStr (s : String)
  | vUUID (u : Nat)
  | vEllipsis
  | vList (xs : List Value)
  | vDict (es : List (String × Value))
  | vObj (qualname : String) (model_dump_json to_json json_m : Option String)
      (to_dict dict_m : Option Value)
  deriving Repr

/-- Lowercase hexadecimal digit, as produced by Python `"%x"` formatting. -/
def hexDigit (n : Nat) : Char :=
  if n < 10 then Char.ofNat (48 + n) else Char.ofNat (87 + n)

/-- Fixed-width big-endian hexadecimal rendering (`"%0*x"`). -/
def natHex : Nat → Nat → List Char
  | 0, _ => []
  | w + 1, v => natHex w (v / 16) ++ [hexDigit (v % 16)]

/-- Canonical string form of a UUID, `str(uuid.UUID(int=u))`:
32 lowercase hex digits grouped 8-4-4-4-12 by dashes. -/
def uuidStr (u : Nat) : String :=
  let ds := natHex 32 (u % 2 ^ 128)
  String.mk (ds.take 8 ++ '-' :: (ds.drop 8).take 4 ++ '-' :: (ds.drop 12).take 4
    ++ '-' :: (ds.drop 16).take 4 ++ '-' :: ds.drop 20)

/-- `isinstance(v, (dict, list))`. -/
def isDL : Value → Bool
  | .vDict _ => true
  | .vList _ => true
  | _ => false

/-- `isinstance(v, UUID)`. -/
def isUUIDv : Value → Bool
  | .vUUID _ => true
  | _ => false

mutual

/-- `is_jsonable(x)`: whether `json.dumps(x)` (no `default` hook) succeeds.
It does on `None`, booleans, numbers, strings, and on lists/dicts all of
whose members are themselves jsonable; `UUID`, `Ellipsis` and opaque
objects make it raise `TypeError`. -/
def is_jsonable : Value → Bool
  | .vNone => true
  | .vBool _ => true
  | .vInt _ => true
  | .vStr _ => true
  | .vUUID _ => false
  | .vEllipsis => false
  | .vList xs => jsonableItems xs
  | .vDict es => jsonablePairs es
  | .vObj _ _ _ _ _ _ => false

def jsonableItems : List Value → Bool
  | [] => true
  | x :: rest => is_jsonable x && jsonableItems rest

def jsonablePairs : List (String × Value) → Bool
  | [] => true
  | (_, v) :: rest => is_jsonable v && jsonablePairs rest

end

/-- Replacement applied by `filter_unjsonable` inside a dict or list to a
member that is neither a container nor jsonable:
`str(v) if isinstance(v, UUID) else ""`. -/
def strOrEmpty : Value → Value
  | .vUUID u => .vStr (uuidStr u)
  | _ => .vStr ""

mutual

/-- The inner `filter_dict` of `filter_unjsonable`. -/
def filter_dict : Value → Value
  | .vDict es => .vDict (filterPairs es)
  | .vList xs => .vList (filterItems xs)
  | v => if is_jsonable v || isUUIDv v then v else .vStr ""

def filterPairs : List (String × Value) → List (String × Value)
  | [] => []
  | (k, v) :: rest =>
      (k, if isDL v || is_jsonable v then filter_dict v else strOrEmpty v)
        :: filterPairs rest

def filterItems : List Value → List Value
  | [] => []
  | v :: rest =>
      (if isDL v || is_jsonable v then filter_dict v else strOrEmpty v)
        :: filterItems rest

end

/-- `filter_unjsonable(d)` simply runs `filter_dict` on its argument. -/
def filter_unjsonable (d : Value) : Value := filter_dict d

/-! ## The serializer `safe_serialize` -/

/-- `type(o).__qualname__` for each modelled runtime type. -/
def typeName : Value → String
  | .vNone => "NoneType"
  | .vBool _ => "bool"
  | .vInt _ => "int"
  | .vStr _ => "str"
  | .vUUID _ => "UUID"
  | .vEllipsis => "ellipsis"
  | .vList _ => "list"
  | .vDict _ => "dict"
  | .vObj qn _ _ _ _ _ => qn

/-- The diagnostic placeholder `f"<<non-serializable: \x7btype(o).__qualname__\x7d>>"`. -/
def nonSerializableMsg (qn : String) : String :=
  "<<non-serializable: " ++ qn ++ ">>"

/-- The inner `default` function of `safe_serialize`: the fallback hook the
JSON encoder invokes on a value it cannot natively serialize.  A `UUID`
becomes its canonical string; otherwise the five capability methods are
probed with `hasattr` in priority order and the first present one is
called; if none is present the diagnostic placeholder string is returned. -/
def js_default : Value → Value
  | .vUUID u => .vStr (uuidStr u)
  | .vObj qn mdj tj jm td dm =>
      match mdj with
      | some s => .vStr s
      | none =>
        match tj with
        | some s => .vStr s
        | none =>
          match jm with
          | some s => .vStr s
          | none =>
            match td with
            | some v => v
            | none =>
              match dm with
              | some v => v
              | none => .vStr (nonSerializableMsg qn)
  | v => .vStr (nonSerializableMsg (typeName v))

/-- A value the JSON encoder can emit directly: the abstract syntax of the
JSON text produced by `json.dumps`. -/
inductive JValue where
  | jnull
  | jbool (b : Bool)
  | jnum (n : Int)
  | jstr (s : String)
  | jarr (xs : List JValue)
  | jobj (es : List (String × JValue))
  deriving Repr

mutual

/-- Semantics of `json.dumps(value, default=default)`: natively-safe leaves
are emitted directly, containers are walked recursively, and any other
value is replaced by what the `default` hook returns, which is then itself
serialized the same way (CPython re-enters the encoder on the hook's
result).  String-returning capabilities therefore yield a JSON string;
`to_dict`/`dict` results are re-walked recursively. -/
def resolve : Value → JValue
  | .vNone => .jnull
  | .vBool b => .jbool b
  | .vInt n => .jnum n
  | .vStr s => .jstr s
  | .vUUID u => .jstr (uuidStr u)
  | .vEllipsis => .jstr (nonSerializableMsg "ellipsis")
  | .vList xs => .jarr (resolveItems xs)
  | .vDict es => .jobj (resolvePairs es)
  | .vObj qn mdj tj jm td dm =>
      match mdj with
      | some s => .jstr s
      | none =>
        match tj with
        | some s => .jstr s
        | none =>
          match jm with
          | some s => .jstr s
          | none =>
            match td with
            | some v => resolve v
            | none =>
              match dm with
              | some v => resolve v
              | none => .jstr (nonSerializableMsg qn)

def resolveItems : List Value → List JValue
  | [] => []
  | x :: rest => resolve x :: resolveItems rest

def resolvePairs : List (String × Value) → List (String × JValue)
  | [] => []
  | (k, v) :: rest => (k, resolve v) :: resolvePairs rest

end

/-- `v is None or v is ...`: the two stripped sentinel values. -/
def isNoneOrEllipsis : Value → Bool
  | .vNone => true
  | .vEllipsis => true
  | _ => false

mutual

/-- The inner `remove_unwanted_items` of `safe_serialize`: recursively
remove dict entries whose value is `None` or `Ellipsis` or whose key is
`"self"`; recurse into lists; leave every other value untouched. -/
def remove_unwanted_items : Value → Value
  | .vDict es => .vDict (cleanPairs es)
  | .vList xs => .vList (cleanItems xs)
  | v => v

def cleanPairs : List (String × Value) → List (String × Value)
  | [] => []
  | (k, v) :: rest =>
      if isNoneOrEllipsis v || k == "self" then cleanPairs rest
      else (k, remove_unwanted_items v) :: cleanPairs rest

def cleanItems : List Value → List Value
  | [] => []
  | v :: rest => remove_unwanted_items v :: cleanItems rest

end

/-! ### JSON text emission, as formatted by `json.dumps` with its default
options (`ensure_ascii=True`, separators `", "` and `": "`). -/

/-- One decimal digit character. -/
def digitChar (n : Nat) : Char := Char.ofNat (48 + n)

/-- Big-endian decimal digits, fuel-driven so that it reduces
definitionally; the fuel is always sufficient when it exceeds the number
of digits. -/
def natDecAux : Nat → Nat → List Char
  | 0, _ => []
  | fuel + 1, n =>
      if n < 10 then [digitChar n]
      else natDecAux fuel (n / 10) ++ [digitChar (n % 10)]

/-- Big-endian decimal digits of a natural number (`repr` of a Python int). -/
def natDec (n : Nat) : List Char := natDecAux (n + 1) n

/-- Decimal rendering of a Python integer, as `json.dumps` emits it. -/
def intDec (n : Int) : List Char :=
  if n < 0 then '-' :: natDec n.natAbs else natDec n.natAbs

/-- Uppercase-free four-digit hex escape payload (`"\\u%04x"`). -/
def hex4 (n : Nat) : List Char :=
  [hexDigit (n / 4096 % 16), hexDigit (n / 256 % 16),
   hexDigit (n / 16 % 16), hexDigit (n % 16)]

/-- How `json.dumps` (with `ensure_ascii=True`) renders one character of a
string: printable ASCII other than the quote and backslash is literal, the
well-known control characters use two-character escapes, every other
character below `0x20` or above `0x7e` uses `\uXXXX` escapes, with a
surrogate pair above `0xffff`. -/
def escChar (c : Char) : List Char :=
  if c = '"' then ['\\', '"']
  else if c = '\\' then ['\\', '\\']
  else if c = '\n' then ['\\', 'n']
  else if c = '\r' then ['\\', 'r']
  else if c = '\t' then ['\\', 't']
  else if c.toNat = 8 then ['\\', 'b']
  else if c.toNat = 12 then ['\\', 'f']
  else if c.toNat < 32 then '\\' :: 'u' :: hex4 c.toNat
  else if c.toNat ≤ 126 then [c]
  else if c.toNat < 65536 then '\\' :: 'u' :: hex4 c.toNat
  else
    '\\' :: 'u' :: hex4 (55296 + (c.toNat - 65536) / 1024)
      ++ '\\' :: 'u' :: hex4 (56320 + (c.toNat - 65536) % 1024)

/-- Characters of the JSON string literal encoding `s`. -/
def encStrD (s : String) : List Char :=
  '"' :: (s.data.map escChar).flatten ++ ['"']

mutual

/-- Characters of the JSON text for a `JValue`, exactly as `json.dumps`
formats it: `", "` between container members, `": "` after keys. -/
def encJD : JValue → List Char
  | .jnull => ['n', 'u', 'l', 'l']
  | .jbool true => ['t', 'r', 'u', 'e']
  | .jbool false => ['f', 'a', 'l', 's', 'e']
  | .jnum n => intDec n
  | .jstr s => encStrD s
  | .jarr xs => '[' :: encItems xs ++ [']']
  | .jobj es => '\x7b' :: encPairs es ++ ['\x7d']

def encItems : List JValue → List Char
  | [] => []
  | x :: rest => encJD x ++ encItemsTail rest

def encItemsTail : List JValue → List Char
  | [] => []
  | x :: rest => ',' :: ' ' :: encJD x ++ encItemsTail rest

def encPairs : List (String × JValue) → List Char
  | [] => []
  | (k, v) :: rest => encStrD k ++ ':' :: ' ' :: encJD v ++ encPairsTail rest

def encPairsTail : List (String × JValue) → List Char
  | [] => []
  | (k, v) :: rest =>
      ',' :: ' ' :: encStrD k ++ ':' :: ' ' :: encJD v ++ encPairsTail rest

end

/-- `safe_serialize(obj)`: strip unwanted dict entries, then emit JSON text
with the `default` fallback hook. -/
def safe_serialize (obj : Value) : String :=
  String.mk (encJD (resolve (remove_unwanted_items obj)))

/-! ### A JSON validity checker

`isValidJson` accepts a string only when it is a JSON text (RFC 8259
grammar; the checker is deliberately incomplete — it does not accept
fraction/exponent number forms or every whitespace placement, which
`json.dumps` never emits — but everything it accepts is valid JSON).  It
is used to state that `safe_serialize` returns valid JSON text. -/

def isDigitC (c : Char) : Bool := 48 ≤ c.toNat && c.toNat ≤ 57

def isDigit19 (c : Char) : Bool := 49 ≤ c.toNat && c.toNat ≤ 57

def isHexC (c : Char) : Bool :=
  isDigitC c || (97 ≤ c.toNat && c.toNat ≤ 102) || (65 ≤ c.toNat && c.toNat ≤ 70)

/-- Consume a run of decimal digits. -/
def skipDigits : List Char → List Char
  | [] => []
  | c :: r => if isDigitC c then skipDigits r else c :: r

/-- Consume a run of blanks. -/
def skipWS : List Char → List Char
  | [] => []
  | c :: r => if c = ' ' then skipWS r else c :: r

/-- Unsigned JSON number: `0`, or a nonzero digit followed by digits. -/
def pNumBody : List Char → Option (List Char)
  | [] => none
  | c :: r =>
      if c = '0' then some r
      else if isDigit19 c then some (skipDigits r)
      else none

/-- JSON number with optional leading minus sign. -/
def pNum : List Char → Option (List Char)
  | [] => none
  | c :: r => if c = '-' then pNumBody r else pNumBody (c :: r)

/-- JSON string body, entered after the opening quote; returns the input
past the closing quote. -/
def pStr : List Char → Option (List Char)
  | [] => none
  | c :: r =>
      if c = '"' then some r
      else if c = '\\' then
        match r with
        | [] => none
        | e :: r2 =>
            if e = 'u' then
              match r2 with
              | a :: b :: c2 :: d :: r3 =>
                  if isHexC a && isHexC b && isHexC c2 && isHexC d then pStr r3
                  else none
              | _ => none
            else if e = '"' || e = '\\' || e = '/' || e = 'b' || e = 'f'
                || e = 'n' || e = 'r' || e = 't' then pStr r2
            else none
      else if 32 ≤ c.toNat then pStr r
      else none

mutual

/-- One JSON value; fuel bounds the nesting recursion. -/
def pVal : Nat → List Char → Option (List Char)
  | 0, _ => none
  | _ + 1, [] => none
  | fuel + 1, c :: r =>
      if c = 'n' then
        match r with
        | 'u' :: 'l' :: 'l' :: r2 => some r2
        | _ => none
      else if c = 't' then
        match r with
        | 'r' :: 'u' :: 'e' :: r2 => some r2
        | _ => none
      else if c = 'f' then
        match r with
        | 'a' :: 'l' :: 's' :: 'e' :: r2 => some r2
        | _ => none
      else if c = '"' then pStr r
      else if c = '[' then
        match r with
        | [] => none
        | c2 :: r2 =>
            if c2 = ']' then some r2
            else
              match pVal fuel (c2 :: r2) with
              | some r3 => pArrTail fuel r3
              | none => none
      else if c = '\x7b' then
        match r with
        | [] => none
        | c2 :: r2 =>
            if c2 = '\x7d' then some r2
            else if c2 = '"' then
              match pStr r2 with
              | some r3 => pMember fuel r3
              | none => none
            else none
      else pNum (c :: r)

/-- After an object key: expect `: value`, then the rest of the object. -/
def pMember : Nat → List Char → Option (List Char)
  | 0, _ => none
  | fuel + 1, l =>
      match skipWS l with
      | [] => none
      | c :: r =>
          if c = ':' then
            match pVal fuel (skipWS r) with
            | some r2 => pObjTail fuel r2
            | none => none
          else none

/-- After an array element: `]` ends the array, `,` starts another element. -/
def pArrTail : Nat → List Char → Option (List Char)
  | 0, _ => none
  | fuel + 1, l =>
      match l with
      | [] => none
      | c :: r =>
          if c = ']' then some r
          else if c = ',' then
            match pVal fuel (skipWS r) with
            | some r2 => pArrTail fuel r2
            | none => none
          else none

/-- After an object member: `\x7d` ends the object, `,` starts another
`"key": value` member. -/
def pObjTail : Nat → List Char → Option (List Char)
  | 0, _ => none
  | fuel + 1, l =>
      match l with
      | [] => none
      | c :: r =>
          if c = '\x7d' then some r
          else if c = ',' then
            match skipWS r with
            | [] => none
            | c2 :: r2 =>
                if c2 = '"' then
                  match pStr r2 with
                  | some r3 => pMember fuel r3
                  | none => none
                else none
          else none

end

/-- A string is accepted as JSON text when one JSON value consumes it
entirely. -/
def isValidJson (s : String) : Bool :=
  match pVal (s.data.length + 1) s.data with
  | some [] => true
  | _ => false

/-- The input does not begin with a decimal digit (so a preceding number
token cannot be extended). -/
def notDigitStart : List Char → Bool
  | [] => true
  | c :: _ => !isDigitC c

mutual

/-- Parser fuel consumed by a `JValue`: enough fuel to let `pVal` walk the
whole encoding. -/
def jsize : JValue → Nat
  | .jarr xs => jsizeL xs + 1
  | .jobj es => jsizeP es + 1
  | _ => 1

def jsizeL : List JValue → Nat
  | [] => 0
  | x :: xs => jsize x + jsizeL xs + 1

def jsizeP : List (String × JValue) → Nat
  | [] => 0
  | (_, v) :: es => jsize v + jsizeP es + 2

end

mutual

/-- An input composed only of primitives, sequences, mappings, and
unique-identifier values — no `Ellipsis` and no opaque objects. -/
def tame : Value → Bool
  | .vNone => true
  | .vBool _ => true
  | .vInt _ => true
  | .vStr _ => true
  | .vUUID _ => true
  | .vEllipsis => false
  | .vObj _ _ _ _ _ _ => false
  | .vList xs => tameItems xs
  | .vDict es => tamePairs es

/-- `tame` on every list element. -/
def tameItems : List Value → Bool
  | [] => true
  | x :: rest => tame x && tameItems rest

/-- `tame` on every dict value. -/
def tamePairs : List (String × Value) → Bool
  | [] => true
  | (_, v) :: rest => tame v && tamePairs rest

end

/-! ## The process-wide instance registry

Classes are identified by a `Nat` (class identity is the dict key in
`ao_instances`).  Constructing `class_(*args)` is modelled by materialising
an `Inst` recording the class, the constructor argument, and a fresh
construction identifier drawn from an ever-increasing counter — two
constructions never yield the same `Inst`, which models Python object
identity. -/

/-- One constructed instance: its class, the argument the constructor was
actually called with, and a unique construction identifier. -/
structure Inst where
  cls : Nat
  arg : Nat
  cid : Nat
  deriving Repr, DecidableEq

/-- The process state: the `ao_instances` registry (an association list
keyed by class identity) plus the construction counter. -/
structure RegState where
  registry : List (Nat × Inst)
  counter : Nat
  deriving Repr, DecidableEq

/-- `class_ in ao_instances` / `ao_instances[class_]`. -/
def regFind (r : List (Nat × Inst)) (c : Nat) : Option Inst :=
  match r with
  | [] => none
  | (c2, i) :: rest => if c2 = c then some i else regFind rest c

/-- `singleton(class_)` returns `getinstance`: on a miss it constructs the
instance with the given argument and caches it; on a hit it returns the
cached instance and the arguments are ignored. -/
def singleton (cls : Nat) : Nat → RegState → Inst × RegState :=
  fun a s =>
    match regFind s.registry cls with
    | some i => (i, s)
    | none =>
        let i : Inst := ⟨cls, a, s.counter⟩
        (i, ⟨(cls, i) :: s.registry, s.counter + 1⟩)

/-- `conditional_singleton(class_)` returns `getinstance`: it pops the
`use_singleton` option (default true); when true it behaves exactly like
`singleton`, when false it constructs and returns a fresh instance
without consulting or updating the registry. -/
def conditional_singleton (cls : Nat) : Nat → Bool → RegState → Inst × RegState :=
  fun a use_singleton s =>
    if use_singleton then singleton cls a s
    else (⟨cls, a, s.counter⟩, ⟨s.registry, s.counter + 1⟩)

/-- `clear_singletons()` rebinds `ao_instances` to a fresh empty dict. -/
def clear_singletons (s : RegState) : RegState :=
  ⟨[], s.counter⟩

/-! ## Supporting lemmas -/

/-- On a non-container value `filter_dict` takes its leaf branch. -/
theorem filter_dict_leaf (v : Value) (h : isDL v = false) :
    filter_dict v = if is_jsonable v || isUUIDv v then v else .vStr "" := by
  cases v with
  | vList xs => simp [isDL] at h
  | vDict es => simp [isDL] at h
  | _ => rfl

/-- On a non-container value `remove_unwanted_items` is the identity. -/
theorem remove_unwanted_items_leaf (v : Value) (h : isDL v = false) :
    remove_unwanted_items v = v := by
  cases v with
  | vList xs => simp [isDL] at h
  | vDict es => simp [isDL] at h
  | _ => rfl

theorem strOrEmpty_jsonable (v : Value) : is_jsonable (strOrEmpty v) = true := by
  cases v <;> rfl

theorem isDL_not_uuid (v : Value) (h : isDL v = true) : isUUIDv v = false := by
  cases v <;> simp_all [isDL, isUUIDv]

/-- `filter_dict` maps containers to containers. -/
theorem filter_dict_isDL (v : Value) (h : isDL v = true) :
    isDL (filter_dict v) = true := by
  cases v <;> simp_all [isDL, filter_dict]

mutual

/-- Sanitization: on any non-UUID input, `filter_dict` produces a
JSON-encodable value. -/
theorem filter_dict_sanitizes : (v : Value) → isUUIDv v = false →
    is_jsonable (filter_dict v) = true
  | .vDict es, _ => by
      simp only [filter_dict, is_jsonable]
      exact filterPairs_sanitize es
  | .vList xs, _ => by
      simp only [filter_dict, is_jsonable]
      exact filterItems_sanitize xs
  | .vNone, _ => rfl
  | .vBool b, _ => rfl
  | .vInt n, _ => rfl
  | .vStr s, _ => rfl
  | .vUUID u, h => by simp [isUUIDv] at h
  | .vEllipsis, _ => rfl
  | .vObj qn a b c d e, _ => rfl

theorem filterPairs_sanitize : (es : List (String × Value)) →
    jsonablePairs (filterPairs es) = true
  | [] => rfl
  | (k, v) :: rest => by
      simp only [filterPairs, jsonablePairs, Bool.and_eq_true]
      refine ⟨?_, filterPairs_sanitize rest⟩
      by_cases hdl : isDL v = true
      · simp only [hdl, Bool.true_or, if_pos]
        exact filter_dict_sanitizes v (isDL_not_uuid v hdl)
      · by_cases hj : is_jsonable v = true
        · simp only [hj, Bool.or_true, if_pos]
          have hnu : isUUIDv v = false := by cases v <;> simp_all [is_jsonable, isUUIDv]
          exact filter_dict_sanitizes v hnu
        · simp only [Bool.not_eq_true] at hdl hj
          simp only [hdl, hj, Bool.or_self, if_neg, Bool.false_eq_true, not_false_iff]
          exact strOrEmpty_jsonable v

theorem filterItems_sanitize : (xs : List Value) →
    jsonableItems (filterItems xs) = true
  | [] => rfl
  | v :: rest => by
      simp only [filterItems, jsonableItems, Bool.and_eq_true]
      refine ⟨?_, filterItems_sanitize rest⟩
      by_cases hdl : isDL v = true
      · simp only [hdl, Bool.true_or, if_pos]
        exact filter_dict_sanitizes v (isDL_not_uuid v hdl)
      · by_cases hj : is_jsonable v = true
        · simp only [hj, Bool.or_true, if_pos]
          have hnu : isUUIDv v = false := by cases v <;> simp_all [is_jsonable, isUUIDv]
          exact filter_dict_sanitizes v hnu
        · simp only [Bool.not_eq_true] at hdl hj
          simp only [hdl, hj, Bool.or_self, if_neg, Bool.false_eq_true, not_false_iff]
          exact strOrEmpty_jsonable v

end

mutual

/-- `filter_dict` is idempotent. -/
theorem filter_dict_idem : (v : Value) → filter_dict (filter_dict v) = filter_dict v
  | .vDict es => by
      simp only [filter_dict]
      exact congrArg Value.vDict (filterPairs_idem es)
  | .vList xs => by
      simp only [filter_dict]
      exact congrArg Value.vList (filterItems_idem xs)
  | .vNone => rfl
  | .vBool b => rfl
  | .vInt n => rfl
  | .vStr s => rfl
  | .vUUID u => rfl
  | .vEllipsis => rfl
  | .vObj qn a b c d e => rfl

theorem filterPairs_idem : (es : List (String × Value)) →
    filterPairs (filterPairs es) = filterPairs es
  | [] => rfl
  | (k, v) :: rest => by
      simp only [filterPairs, List.cons.injEq, Prod.mk.injEq, true_and]
      refine ⟨?_, filterPairs_idem rest⟩
      by_cases hdl : isDL v = true
      · simp only [hdl, Bool.true_or, if_pos, filter_dict_isDL v hdl]
        exact filter_dict_idem v
      · by_cases hj : is_jsonable v = true
        · simp only [hj, Bool.or_true, if_pos]
          have hv : filter_dict v = v := by
            rw [filter_dict_leaf v (by simpa using hdl), hj]
            simp
          simp [hv, hj]
        · simp only [Bool.not_eq_true] at hdl hj
          simp only [hdl, hj, Bool.or_self, if_neg, Bool.false_eq_true, not_false_iff]
          cases v <;> rfl

theorem filterItems_idem : (xs : List Value) →
    filterItems (filterItems xs) = filterItems xs
  | [] => rfl
  | v :: rest => by
      simp only [filterItems, List.cons.injEq]
      refine ⟨?_, filterItems_idem rest⟩
      by_cases hdl : isDL v = true
      · simp only [hdl, Bool.true_or, if_pos, filter_dict_isDL v hdl]
        exact filter_dict_idem v
      · by_cases hj : is_jsonable v = true
        · simp only [hj, Bool.or_true, if_pos]
          have hv : filter_dict v = v := by
            rw [filter_dict_leaf v (by simpa using hdl), hj]
            simp
          simp [hv, hj]
        · simp only [Bool.not_eq_true] at hdl hj
          simp only [hdl, hj, Bool.or_self, if_neg, Bool.false_eq_true, not_false_iff]
          cases v <;> rfl

end

/-! ## Claim theorems: sanitizer and strip phase -/

/-- `cleanPairs` keeps exactly the entries with non-sentinel value and
non-`"self"` key, recursing into the kept values. -/
theorem cleanPairs_eq_filter (es : List (String × Value)) :
    cleanPairs es =
      (es.filter fun p => !(isNoneOrEllipsis p.2 || p.1 == "self")).map
        fun p => (p.1, remove_unwanted_items p.2) := by
  induction es with
  | nil => rfl
  | cons p rest ih =>
      obtain ⟨k, v⟩ := p
      by_cases h : (isNoneOrEllipsis v || k == "self") = true
      · simp [cleanPairs, h, List.filter, ih]
      · simp only [Bool.not_eq_true] at h
        simp [cleanPairs, h, List.filter, ih]

theorem cleanItems_eq_map (xs : List Value) :
    cleanItems xs = xs.map remove_unwanted_items := by
  induction xs with
  | nil => rfl
  | cons x rest ih => simp [cleanItems, ih]

/-- C1 counterexample: a UUID passed directly to `filter_unjsonable` comes
back as the UUID itself, which the JSON-encodability probe rejects. -/
theorem filter_unjsonable_uuid_not_sanitized :
    filter_unjsonable (.vUUID 1) = .vUUID 1 ∧
    is_jsonable (filter_unjsonable (.vUUID 1)) = false :=
  ⟨rfl, rfl⟩

/-- C1 (amended): on every input that is not itself a UUID,
`filter_unjsonable` returns a JSON-encodable value. -/
theorem filter_unjsonable_sanitizes (v : Value) (h : isUUIDv v = false) :
    is_jsonable (filter_unjsonable v) = true :=
  filter_dict_sanitizes v h

theorem filter_unjsonable_sanitizes_witness :
    isUUIDv (.vDict [("k", .vEllipsis)]) = false ∧
    is_jsonable (filter_unjsonable (.vDict [("k", .vEllipsis)])) = true :=
  ⟨rfl, filter_unjsonable_sanitizes (.vDict [("k", .vEllipsis)]) rfl⟩

/-- C2 counterexample: `filter_unjsonable` on a bare UUID does not return
its canonical string form (it returns the UUID unchanged). -/
theorem filter_unjsonable_uuid_not_str :
    filter_unjsonable (.vUUID 1) ≠ .vStr (uuidStr 1) :=
  fun h => Bool.noConfusion (congrArg isUUIDv h : true = false)

/-- C2 (amended): a leaf is passed through unchanged when it is
JSON-encodable or a UUID (the UUID is not converted to a string at the top
level), and replaced by the empty string otherwise. -/
theorem filter_unjsonable_on_leaf (v : Value) (h : isDL v = false) :
    filter_unjsonable v = if is_jsonable v || isUUIDv v then v else .vStr "" :=
  filter_dict_leaf v h

theorem filter_unjsonable_on_leaf_witness :
    isDL (.vObj "X" none none none none none) = false ∧
    filter_unjsonable (.vObj "X" none none none none none) =
      (if is_jsonable (.vObj "X" none none none none none)
          || isUUIDv (.vObj "X" none none none none none)
        then .vObj "X" none none none none none else .vStr "") :=
  ⟨rfl, filter_unjsonable_on_leaf (.vObj "X" none none none none none) rfl⟩

/-- C6: `filter_unjsonable` is idempotent. -/
theorem filter_unjsonable_idem (s : Value) :
    filter_unjsonable (filter_unjsonable s) = filter_unjsonable s :=
  filter_dict_idem s

/-- C4: the encoder fallback returns `str(o)` for a UUID, otherwise calls
the first capability found among `model_dump_json`, `to_json`, `json`,
`to_dict`, `dict` in this priority order (`to_dict` beats `dict`), and
returns the `<<non-serializable: ...>>` placeholder naming the runtime
type when none exists. -/
theorem js_default_spec :
    (∀ u, js_default (.vUUID u) = .vStr (uuidStr u)) ∧
    (∀ qn s tj jm td dm, js_default (.vObj qn (some s) tj jm td dm) = .vStr s) ∧
    (∀ qn s jm td dm, js_default (.vObj qn none (some s) jm td dm) = .vStr s) ∧
    (∀ qn s td dm, js_default (.vObj qn none none (some s) td dm) = .vStr s) ∧
    (∀ qn v dm, js_default (.vObj qn none none none (some v) dm) = v) ∧
    (∀ qn v, js_default (.vObj qn none none none none (some v)) = v) ∧
    (∀ qn, js_default (.vObj qn none none none none none) =
      .vStr (nonSerializableMsg qn)) ∧
    js_default (.vObj "MyClass" none none none none none) =
      .vStr "<<non-serializable: MyClass>>" :=
  ⟨fun _ => rfl, fun _ _ _ _ _ _ => rfl, fun _ _ _ _ _ => rfl, fun _ _ _ _ => rfl,
   fun _ _ _ => rfl, fun _ _ => rfl, fun _ => rfl, rfl⟩

/-- C3: the strip phase removes exactly the mapping entries with `None` or
`Ellipsis` values or key `"self"`, recurses into containers, passes leaves
through, and on the spec example produces exactly `JSON \x7b"b": 1\x7d`. -/
theorem safe_serialize_strip_spec (es : List (String × Value)) (xs : List Value)
    (v : Value) (obj : Value) (hleaf : isDL v = false) :
    remove_unwanted_items (.vDict es) =
      .vDict ((es.filter fun p => !(isNoneOrEllipsis p.2 || p.1 == "self")).map
        fun p => (p.1, remove_unwanted_items p.2)) ∧
    remove_unwanted_items (.vList xs) = .vList (xs.map remove_unwanted_items) ∧
    remove_unwanted_items v = v ∧
    safe_serialize (.vDict [("self", obj), ("a", .vNone), ("b", .vInt 1),
      ("c", .vEllipsis)]) = "\x7b\"b\": 1\x7d" := by
  refine ⟨?_, ?_, remove_unwanted_items_leaf v hleaf, ?_⟩
  · simp only [remove_unwanted_items]
    exact congrArg Value.vDict (cleanPairs_eq_filter es)
  · simp only [remove_unwanted_items]
    exact congrArg Value.vList (cleanItems_eq_map xs)
  · have h : remove_unwanted_items (.vDict [("self", obj), ("a", .vNone),
        ("b", .vInt 1), ("c", .vEllipsis)]) = .vDict [("b", .vInt 1)] := by
      simp [remove_unwanted_items, cleanPairs, isNoneOrEllipsis]
    show String.mk (encJD (resolve (remove_unwanted_items _))) = _
    rw [h]
    rfl

theorem safe_serialize_strip_spec_witness :
    isDL (.vInt 7) = false ∧
    (remove_unwanted_items (.vDict [("a", .vNone)]) =
        .vDict ((([("a", Value.vNone)]).filter
            fun p => !(isNoneOrEllipsis p.2 || p.1 == "self")).map
          fun p => (p.1, remove_unwanted_items p.2)) ∧
      remove_unwanted_items (.vList [.vNone]) =
        .vList (([Value.vNone]).map remove_unwanted_items) ∧
      remove_unwanted_items (.vInt 7) = .vInt 7 ∧
      safe_serialize (.vDict [("self", .vInt 0), ("a", .vNone), ("b", .vInt 1),
        ("c", .vEllipsis)]) = "\x7b\"b\": 1\x7d") :=
  ⟨rfl, safe_serialize_strip_spec [("a", .vNone)] [.vNone] (.vInt 7) (.vInt 0) rfl⟩

/-- C10: sentinels are stripped only from mapping entries, never from
sequence elements: a `None` element survives and encodes as `null`, an
`Ellipsis` element survives, reaches the fallback, and encodes as the
diagnostic placeholder for its runtime type `ellipsis`. -/
theorem strip_preserves_sequence_elements (xs : List Value) :
    remove_unwanted_items (.vList xs) = .vList (xs.map remove_unwanted_items) ∧
    remove_unwanted_items .vNone = .vNone ∧
    remove_unwanted_items .vEllipsis = .vEllipsis ∧
    resolve .vNone = .jnull ∧
    js_default .vEllipsis = .vStr (nonSerializableMsg (typeName .vEllipsis)) ∧
    safe_serialize (.vList [.vNone, .vEllipsis]) =
      "[null, \"<<non-serializable: ellipsis>>\"]" := by
  refine ⟨?_, rfl, rfl, rfl, rfl, rfl⟩
  simp only [remove_unwanted_items]
  exact congrArg Value.vList (cleanItems_eq_map xs)

/-! ## Claim theorems: instance registry -/

/-- C7: with no cached entry for `C`, the first `singleton(C)` call
constructs the instance from its own argument (and a fresh construction
id), and the second call returns that exact instance, ignoring its
argument and leaving the state untouched. -/
theorem singleton_caches (C a1 a2 : Nat) (s : RegState)
    (h : regFind s.registry C = none) :
    (singleton C a1 s).1.cls = C ∧ (singleton C a1 s).1.arg = a1 ∧
    (singleton C a1 s).1.cid = s.counter ∧
    singleton C a2 (singleton C a1 s).2 =
      ((singleton C a1 s).1, (singleton C a1 s).2) := by
  simp [singleton, regFind, h]

theorem singleton_caches_witness :
    regFind (RegState.mk [] 0).registry 0 = none ∧
    ((singleton 0 1 ⟨[], 0⟩).1.cls = 0 ∧ (singleton 0 1 ⟨[], 0⟩).1.arg = 1 ∧
      (singleton 0 1 ⟨[], 0⟩).1.cid = 0 ∧
      singleton 0 2 (singleton 0 1 ⟨[], 0⟩).2 =
        ((singleton 0 1 ⟨[], 0⟩).1, (singleton 0 1 ⟨[], 0⟩).2)) :=
  ⟨rfl, singleton_caches 0 1 2 ⟨[], 0⟩ rfl⟩

/-- C8: with `use_singleton=False` every call constructs a distinct fresh
instance from its own argument and leaves the registry exactly as it was,
so a cached entry is still what `singleton` returns afterwards; with
`use_singleton=True` (the default) the call is exactly `singleton`. -/
theorem conditional_singleton_bypass (C a1 a2 b : Nat) (s : RegState) :
    (conditional_singleton C a1 false s).1 ≠
      (conditional_singleton C a2 false (conditional_singleton C a1 false s).2).1 ∧
    (conditional_singleton C a1 false s).1.cls = C ∧
    (conditional_singleton C a1 false s).1.arg = a1 ∧
    (conditional_singleton C a2 false (conditional_singleton C a1 false s).2).1.arg = a2 ∧
    (conditional_singleton C a1 false s).2.registry = s.registry ∧
    (conditional_singleton C a2 false (conditional_singleton C a1 false s).2).2.registry
      = s.registry ∧
    (∀ i, regFind s.registry C = some i →
      (singleton C b (conditional_singleton C a2 false
        (conditional_singleton C a1 false s).2).2).1 = i) ∧
    conditional_singleton C b true s = singleton C b s := by
  refine ⟨?_, rfl, rfl, rfl, rfl, rfl, ?_, rfl⟩
  · intro h
    have := congrArg Inst.cid h
    simp [conditional_singleton] at this
  · intro i hi
    simp [conditional_singleton, singleton, hi]

theorem conditional_singleton_bypass_witness :
    (singleton 0 5 (conditional_singleton 0 2 false
      (conditional_singleton 0 1 false ⟨[(0, ⟨0, 9, 4⟩)], 5⟩).2).2).1 = ⟨0, 9, 4⟩ :=
  (conditional_singleton_bypass 0 1 2 5 ⟨[(0, ⟨0, 9, 4⟩)], 5⟩).2.2.2.2.2.2.1
    ⟨0, 9, 4⟩ rfl

/-- C9: `clear_singletons` empties the whole registry, and a following
`singleton(C)` call constructs a brand-new instance, distinct from every
previously cached one. -/
theorem clear_singletons_resets (C a : Nat) (s : RegState) (p : Nat × Inst)
    (hp : p ∈ s.registry) (hcid : p.2.cid < s.counter) :
    (clear_singletons s).registry = [] ∧
    (singleton C a (clear_singletons s)).1.cid = s.counter ∧
    (singleton C a (clear_singletons s)).1 ≠ p.2 := by
  refine ⟨rfl, rfl, fun h => ?_⟩
  have := congrArg Inst.cid h
  simp only [singleton, clear_singletons, regFind] at this
  omega

theorem clear_singletons_resets_witness :
    ((0, Inst.mk 0 3 0) ∈ (RegState.mk [(0, ⟨0, 3, 0⟩)] 1).registry ∧
      (0 : Nat) < 1) ∧
    ((clear_singletons ⟨[(0, ⟨0, 3, 0⟩)], 1⟩).registry = [] ∧
      (singleton 0 7 (clear_singletons ⟨[(0, ⟨0, 3, 0⟩)], 1⟩)).1.cid = 1 ∧
      (singleton 0 7 (clear_singletons ⟨[(0, ⟨0, 3, 0⟩)], 1⟩)).1 ≠ ⟨0, 3, 0⟩) :=
  ⟨⟨by decide, by decide⟩,
    clear_singletons_resets 0 7 ⟨[(0, ⟨0, 3, 0⟩)], 1⟩ (0, ⟨0, 3, 0⟩)
      (by decide) (by decide)⟩

/-! ## Lemmas towards JSON validity of `safe_serialize` output -/

theorem hexDigit_isHex (n : Nat) (h : n < 16) : isHexC (hexDigit n) = true := by
  interval_cases n <;> decide

theorem digitChar_isDigit (n : Nat) (h : n < 10) : isDigitC (digitChar n) = true := by
  interval_cases n <;> decide

theorem digitChar_isDigit19 (n : Nat) (h1 : 1 ≤ n) (h2 : n < 10) :
    isDigit19 (digitChar n) = true := by
  interval_cases n <;> decide

theorem digitChar_zero (n : Nat) (h : n < 10) :
    (digitChar n = '0') = (n = 0) := by
  interval_cases n <;> decide

/-- Structure of the decimal digits: nonempty, all digits, head nonzero
unless the number is zero. -/
theorem natDecAux_spec : (fuel n : Nat) → n < fuel →
    ∃ c ds, natDecAux fuel n = c :: ds ∧ isDigitC c = true ∧
      (∀ d ∈ ds, isDigitC d = true) ∧
      (n = 0 → c = '0' ∧ ds = []) ∧ (n ≠ 0 → isDigit19 c = true)
  | fuel + 1, n, _h => by
      by_cases h10 : n < 10
      · refine ⟨digitChar n, [], ?_, digitChar_isDigit n h10, by simp, ?_, ?_⟩
        · simp [natDecAux, h10]
        · intro hz; subst hz; exact ⟨rfl, rfl⟩
        · intro hnz
          exact digitChar_isDigit19 n (by omega) h10
      · have hlt : n / 10 < fuel := by
          have := Nat.div_lt_self (by omega : 0 < n) (by omega : 1 < 10)
          omega
        obtain ⟨c, ds, heq, hc, hds, _, hnz⟩ := natDecAux_spec fuel (n / 10) hlt
        refine ⟨c, ds ++ [digitChar (n % 10)], ?_, hc, ?_, ?_, ?_⟩
        · simp [natDecAux, h10, heq]
        · intro d hd
          rcases List.mem_append.mp hd with h1 | h1
          · exact hds d h1
          · simp only [List.mem_singleton] at h1
            subst h1
            exact digitChar_isDigit _ (Nat.mod_lt _ (by omega))
        · intro hz; omega
        · intro _
          exact hnz (by omega)

theorem natDec_spec (n : Nat) :
    ∃ c ds, natDec n = c :: ds ∧ isDigitC c = true ∧
      (∀ d ∈ ds, isDigitC d = true) ∧
      (n = 0 → c = '0' ∧ ds = []) ∧ (n ≠ 0 → isDigit19 c = true) :=
  natDecAux_spec (n + 1) n (by omega)

theorem skipDigits_append (ds r : List Char) (hds : ∀ d ∈ ds, isDigitC d = true)
    (hr : notDigitStart r = true) : skipDigits (ds ++ r) = r := by
  induction ds with
  | nil =>
      cases r with
      | nil => rfl
      | cons c t =>
          simp only [notDigitStart, Bool.not_eq_true'] at hr
          simp [skipDigits, hr]
  | cons d t ih =>
      have hd : isDigitC d = true := hds d (by simp)
      simp only [List.cons_append, skipDigits, hd, if_pos]
      exact ih fun x hx => hds x (by simp [hx])

theorem isDigit19_ne_zero (c : Char) (h : isDigit19 c = true) : c ≠ '0' := by
  intro he
  subst he
  simp [isDigit19] at h

theorem pNumBody_natDec (n : Nat) (r : List Char) (hr : notDigitStart r = true) :
    pNumBody (natDec n ++ r) = some r := by
  obtain ⟨c, ds, heq, hc, hds, hz, hnz⟩ := natDec_spec n
  rw [heq]
  by_cases h0 : n = 0
  · obtain ⟨rfl, rfl⟩ := hz h0
    simp [pNumBody]
  · have h19 := hnz h0
    have hne := isDigit19_ne_zero c h19
    simp [pNumBody, hne, h19, skipDigits_append ds r hds hr]

theorem isDigitC_ne_minus (c : Char) (h : isDigitC c = true) : c ≠ '-' := by
  intro he
  subst he
  simp [isDigitC] at h

theorem pNum_intDec (n : Int) (r : List Char) (hr : notDigitStart r = true) :
    pNum (intDec n ++ r) = some r := by
  by_cases hneg : n < 0
  · simp only [intDec, hneg, if_pos, List.cons_append, pNum, if_pos]
    exact pNumBody_natDec n.natAbs r hr
  · simp only [intDec, hneg, if_neg, Bool.false_eq_true, not_false_iff]
    obtain ⟨c, ds, heq, hc, -, -, -⟩ := natDec_spec n.natAbs
    rw [heq]
    simp only [List.cons_append, pNum, isDigitC_ne_minus c hc, if_neg]
    rw [← List.cons_append, ← heq]
    exact pNumBody_natDec n.natAbs r hr

theorem hex4_all_hex (n : Nat) : ∀ d ∈ hex4 n, isHexC d = true := by
  intro d hd
  simp only [hex4, List.mem_cons, List.mem_singleton, List.not_mem_nil] at hd
  rcases hd with rfl | rfl | rfl | rfl | h
  · exact hexDigit_isHex _ (Nat.mod_lt _ (by omega))
  · exact hexDigit_isHex _ (Nat.mod_lt _ (by omega))
  · exact hexDigit_isHex _ (Nat.mod_lt _ (by omega))
  · exact hexDigit_isHex _ (Nat.mod_lt _ (by omega))
  · cases h

/-- `pStr` consumes a `\uXXXX` escape. -/
theorem pStr_unicode (n : Nat) (t : List Char) :
    pStr ('\\' :: ('u' :: (hex4 n ++ t))) = pStr t := by
  have h := hex4_all_hex n
  obtain ⟨a, b, c, d, he⟩ : ∃ a b c d, hex4 n = [a, b, c, d] :=
    ⟨_, _, _, _, rfl⟩
  rw [he] at h ⊢
  have ha := h a (by simp)
  have hb := h b (by simp)
  have hc := h c (by simp)
  have hd := h d (by simp)
  rw [pStr.eq_def]
  simp [ha, hb, hc, hd]

/-- `pStr` consumes the escape sequence of any single character. -/
theorem pStr_escChar (c : Char) (t : List Char) :
    pStr (escChar c ++ t) = pStr t := by
  unfold escChar
  by_cases h1 : c = '"'
  · rw [if_pos h1, pStr.eq_def]; simp
  rw [if_neg h1]
  by_cases h2 : c = '\\'
  · rw [if_pos h2, pStr.eq_def]; simp
  rw [if_neg h2]
  by_cases h3 : c = '\n'
  · rw [if_pos h3, pStr.eq_def]; simp
  rw [if_neg h3]
  by_cases h4 : c = '\r'
  · rw [if_pos h4, pStr.eq_def]; simp
  rw [if_neg h4]
  by_cases h5 : c = '\t'
  · rw [if_pos h5, pStr.eq_def]; simp
  rw [if_neg h5]
  by_cases h6 : c.toNat = 8
  · rw [if_pos h6, pStr.eq_def]; simp
  rw [if_neg h6]
  by_cases h7 : c.toNat = 12
  · rw [if_pos h7, pStr.eq_def]; simp
  rw [if_neg h7]
  by_cases h8 : c.toNat < 32
  · rw [if_pos h8]
    simp only [List.cons_append]
    exact pStr_unicode c.toNat t
  rw [if_neg h8]
  by_cases h9 : c.toNat ≤ 126
  · rw [if_pos h9]
    have h32 : 32 ≤ c.toNat := by omega
    rw [List.cons_append, List.nil_append, pStr.eq_def]
    simp [h1, h2, h32]
  rw [if_neg h9]
  by_cases h10 : c.toNat < 65536
  · rw [if_pos h10]
    simp only [List.cons_append]
    exact pStr_unicode c.toNat t
  · rw [if_neg h10]
    simp only [List.cons_append, List.append_assoc]
    rw [pStr_unicode, pStr_unicode]

/-- `pStr` consumes an entire escaped string body up to the closing
quote. -/
theorem pStr_body (cs : List Char) (t : List Char) :
    pStr ((cs.map escChar).flatten ++ '"' :: t) = some t := by
  induction cs with
  | nil =>
      simp only [List.map_nil, List.flatten_nil, List.nil_append]
      rw [pStr.eq_def]
      simp
  | cons c cs ih =>
      simp only [List.map_cons, List.flatten_cons, List.append_assoc]
      rw [pStr_escChar]
      exact ih

/-- Characters that can begin the encoding of a `JValue`. -/
def valueStart (c : Char) : Bool :=
  c == 'n' || c == 't' || c == 'f' || c == '"' || c == '[' || c == '\x7b'
    || c == '-' || isDigitC c

theorem valueStart_props (c : Char) (h : valueStart c = true) :
    c ≠ ']' ∧ c ≠ '\x7d' ∧ c ≠ ',' ∧ c ≠ ' ' ∧ c ≠ ':' := by
  simp only [valueStart, Bool.or_eq_true, beq_iff_eq] at h
  rcases h with ((((((rfl | rfl) | rfl) | rfl) | rfl) | rfl) | rfl) | hd
  · decide
  · decide
  · decide
  · decide
  · decide
  · decide
  · decide
  · refine ⟨?_, ?_, ?_, ?_, ?_⟩ <;> (rintro rfl; exact absurd hd (by decide))

theorem numStart_props (c : Char) (h : c = '-' ∨ isDigitC c = true) :
    c ≠ 'n' ∧ c ≠ 't' ∧ c ≠ 'f' ∧ c ≠ '"' ∧ c ≠ '[' ∧ c ≠ '\x7b' := by
  rcases h with rfl | hd
  · decide
  · refine ⟨?_, ?_, ?_, ?_, ?_, ?_⟩ <;> (rintro rfl; exact absurd hd (by decide))

theorem intDec_head (n : Int) :
    ∃ c t, intDec n = c :: t ∧ (c = '-' ∨ isDigitC c = true) := by
  by_cases h : n < 0
  · exact ⟨'-', natDec n.natAbs, by simp [intDec, h], Or.inl rfl⟩
  · obtain ⟨c, ds, heq, hc, -, -, -⟩ := natDec_spec n.natAbs
    exact ⟨c, ds, by simp [intDec, h, heq], Or.inr hc⟩

mutual

theorem encJD_cons : (j : JValue) →
    ∃ c t, encJD j = c :: t ∧ valueStart c = true
  | .jnull => ⟨'n', ['u', 'l', 'l'], by simp [encJD], by decide⟩
  | .jbool true => ⟨'t', ['r', 'u', 'e'], by simp [encJD], by decide⟩
  | .jbool false => ⟨'f', ['a', 'l', 's', 'e'], by simp [encJD], by decide⟩
  | .jnum n => by
      obtain ⟨c, t, heq, hc⟩ := intDec_head n
      refine ⟨c, t, by simp [encJD, heq], ?_⟩
      rcases hc with rfl | hd
      · decide
      · simp [valueStart, hd]
  | .jstr s => ⟨'"', (s.data.map escChar).flatten ++ ['"'],
      by simp [encJD, encStrD], by decide⟩
  | .jarr xs => ⟨'[', encItems xs ++ [']'], by simp [encJD], by decide⟩
  | .jobj es => ⟨'\x7b', encPairs es ++ ['\x7d'], by simp [encJD], by decide⟩

end

theorem skipWS_cons_ne (c : Char) (l : List Char) (h : ¬c = ' ') :
    skipWS (c :: l) = c :: l := by
  simp [skipWS, h]

theorem skipWS_space (l : List Char) : skipWS (' ' :: l) = skipWS l := by
  simp [skipWS]

/-- After an element encoding, the rest of an array body does not begin
with a digit. -/
theorem notDigitStart_items (xs : List JValue) (r : List Char) :
    notDigitStart (encItemsTail xs ++ (']' :: r)) = true := by
  cases xs <;> simp [encItemsTail, notDigitStart, isDigitC]

/-- After a member encoding, the rest of an object body does not begin
with a digit. -/
theorem notDigitStart_pairs (es : List (String × JValue)) (r : List Char) :
    notDigitStart (encPairsTail es ++ ('\x7d' :: r)) = true := by
  cases es with
  | nil => simp [encPairsTail, notDigitStart, isDigitC]
  | cons p rest =>
      obtain ⟨k, v⟩ := p
      simp [encPairsTail, notDigitStart, isDigitC]

theorem jsize_pos (j : JValue) : 1 ≤ jsize j := by
  cases j <;> simp [jsize]

mutual

theorem jsize_le : (j : JValue) → jsize j ≤ (encJD j).length
  | .jnull => by simp [jsize, encJD]
  | .jbool true => by simp [jsize, encJD]
  | .jbool false => by simp [jsize, encJD]
  | .jnum n => by
      obtain ⟨c, t, heq, -⟩ := intDec_head n
      simp [jsize, encJD, heq]
  | .jstr s => by simp [jsize, encJD, encStrD]
  | .jarr [] => by simp [jsize, jsizeL, encJD, encItems]
  | .jarr (x :: xs) => by
      have h1 := jsize_le x
      have h2 := jsizeL_le xs
      simp only [jsize, jsizeL, encJD, encItems, List.length_cons,
        List.length_append, List.length_singleton]
      omega
  | .jobj [] => by simp [jsize, jsizeP, encJD, encPairs]
  | .jobj ((k, v) :: es) => by
      have h1 := jsize_le v
      have h2 := jsizeP_le es
      simp only [jsize, jsizeP, encJD, encPairs, encStrD, List.length_cons,
        List.length_append, List.length_singleton]
      omega

theorem jsizeL_le : (xs : List JValue) → jsizeL xs ≤ (encItemsTail xs).length
  | [] => by simp [jsizeL, encItemsTail]
  | x :: xs => by
      have h1 := jsize_le x
      have h2 := jsizeL_le xs
      simp only [jsizeL, encItemsTail, List.length_cons, List.length_append]
      omega

theorem jsizeP_le : (es : List (String × JValue)) →
    jsizeP es ≤ (encPairsTail es).length
  | [] => by simp [jsizeP, encPairsTail]
  | (k, v) :: es => by
      have h1 := jsize_le v
      have h2 := jsizeP_le es
      simp only [jsizeP, encPairsTail, encStrD, List.length_cons,
        List.length_append, List.length_singleton]
      omega

end

/-! Single-step unfolding lemmas for the checker. -/

theorem pVal_null (fuel : Nat) (r : List Char) :
    pVal (fuel + 1) ('n' :: 'u' :: 'l' :: 'l' :: r) = some r := by
  rw [pVal.eq_def]; simp

theorem pVal_true (fuel : Nat) (r : List Char) :
    pVal (fuel + 1) ('t' :: 'r' :: 'u' :: 'e' :: r) = some r := by
  rw [pVal.eq_def]; simp

theorem pVal_false (fuel : Nat) (r : List Char) :
    pVal (fuel + 1) ('f' :: 'a' :: 'l' :: 's' :: 'e' :: r) = some r := by
  rw [pVal.eq_def]; simp

theorem pVal_str (fuel : Nat) (r : List Char) :
    pVal (fuel + 1) ('"' :: r) = pStr r := by
  rw [pVal.eq_def]; simp

theorem pVal_num (fuel : Nat) (c : Char) (r : List Char)
    (h : c = '-' ∨ isDigitC c = true) :
    pVal (fuel + 1) (c :: r) = pNum (c :: r) := by
  obtain ⟨h1, h2, h3, h4, h5, h6⟩ := numStart_props c h
  rw [pVal.eq_def]
  simp [h1, h2, h3, h4, h5, h6]

theorem pVal_arr_nil (fuel : Nat) (r : List Char) :
    pVal (fuel + 1) ('[' :: ']' :: r) = some r := by
  rw [pVal.eq_def]; simp

theorem pVal_arr_step (fuel : Nat) (c2 : Char) (r2 r3 : List Char)
    (hne : ¬c2 = ']') (h : pVal fuel (c2 :: r2) = some r3) :
    pVal (fuel + 1) ('[' :: c2 :: r2) = pArrTail fuel r3 := by
  rw [pVal.eq_def]
  simp [hne, h]

theorem pVal_obj_nil (fuel : Nat) (r : List Char) :
    pVal (fuel + 1) ('\x7b' :: '\x7d' :: r) = some r := by
  rw [pVal.eq_def]; simp

theorem pVal_obj_step (fuel : Nat) (r2 r3 : List Char)
    (h : pStr r2 = some r3) :
    pVal (fuel + 1) ('\x7b' :: '"' :: r2) = pMember fuel r3 := by
  rw [pVal.eq_def]
  simp [h]

theorem pMember_step (fuel : Nat) (l r r2 : List Char)
    (h1 : skipWS l = ':' :: r) (h2 : pVal fuel (skipWS r) = some r2) :
    pMember (fuel + 1) l = pObjTail fuel r2 := by
  rw [pMember.eq_def]
  simp [h1, h2]

theorem pArrTail_rb (fuel : Nat) (r : List Char) :
    pArrTail (fuel + 1) (']' :: r) = some r := by
  rw [pArrTail.eq_def]; simp

theorem pArrTail_step (fuel : Nat) (r r2 : List Char)
    (h : pVal fuel (skipWS r) = some r2) :
    pArrTail (fuel + 1) (',' :: r) = pArrTail fuel r2 := by
  rw [pArrTail.eq_def]
  simp [h]

theorem pObjTail_rb (fuel : Nat) (r : List Char) :
    pObjTail (fuel + 1) ('\x7d' :: r) = some r := by
  rw [pObjTail.eq_def]; simp

theorem pObjTail_step (fuel : Nat) (r r2 r3 : List Char)
    (h1 : skipWS r = '"' :: r2) (h2 : pStr r2 = some r3) :
    pObjTail (fuel + 1) (',' :: r) = pMember fuel r3 := by
  rw [pObjTail.eq_def]
  simp [h1, h2]

mutual

/-- The checker accepts the encoding of any `JValue`, consuming exactly
it, provided the continuation does not start with a digit. -/
theorem pVal_encJD : (fuel : Nat) → (j : JValue) → (r : List Char) →
    jsize j ≤ fuel → notDigitStart r = true →
    pVal fuel (encJD j ++ r) = some r
  | 0, j, _, hsz, _ => by have := jsize_pos j; omega
  | fuel + 1, .jnull, r, _, _ => by
      simp only [encJD, List.cons_append, List.nil_append]
      exact pVal_null fuel r
  | fuel + 1, .jbool true, r, _, _ => by
      simp only [encJD, List.cons_append, List.nil_append]
      exact pVal_true fuel r
  | fuel + 1, .jbool false, r, _, _ => by
      simp only [encJD, List.cons_append, List.nil_append]
      exact pVal_false fuel r
  | fuel + 1, .jnum n, r, _, hnd => by
      obtain ⟨c, t, heq, hc⟩ := intDec_head n
      simp only [encJD]
      rw [heq, List.cons_append, pVal_num fuel c (t ++ r) hc, ← List.cons_append,
        ← heq]
      exact pNum_intDec n r hnd
  | fuel + 1, .jstr s, r, _, _ => by
      have hinput : encJD (.jstr s) ++ r
          = '"' :: ((s.data.map escChar).flatten ++ ('"' :: r)) := by
        simp [encJD, encStrD]
      rw [hinput, pVal_str]
      exact pStr_body s.data r
  | fuel + 1, .jarr [], r, _, _ => by
      have hinput : encJD (.jarr []) ++ r = '[' :: ']' :: r := by
        simp [encJD, encItems]
      rw [hinput]
      exact pVal_arr_nil fuel r
  | fuel + 1, .jarr (x :: xs), r, hsz, _ => by
      obtain ⟨c, t, heq, hvs⟩ := encJD_cons x
      have hx := jsize_pos x
      have hsx : jsize x ≤ fuel := by simp [jsize, jsizeL] at hsz; omega
      have hsl : jsizeL xs < fuel := by simp [jsize, jsizeL] at hsz; omega
      have hne : ¬c = ']' := (valueStart_props c hvs).1
      have hel : pVal fuel (encJD x ++ (encItemsTail xs ++ (']' :: r)))
          = some (encItemsTail xs ++ (']' :: r)) :=
        pVal_encJD fuel x _ hsx (notDigitStart_items xs r)
      have hinput : encJD (.jarr (x :: xs)) ++ r
          = '[' :: (encJD x ++ (encItemsTail xs ++ (']' :: r))) := by
        simp [encJD, encItems]
      rw [heq] at hel
      simp only [List.cons_append] at hel
      rw [hinput, heq]
      simp only [List.cons_append]
      rw [pVal_arr_step fuel c _ _ hne hel]
      exact pArrTail_encTail fuel xs r hsl
  | fuel + 1, .jobj [], r, _, _ => by
      have hinput : encJD (.jobj []) ++ r = '\x7b' :: '\x7d' :: r := by
        simp [encJD, encPairs]
      rw [hinput]
      exact pVal_obj_nil fuel r
  | fuel + 1, .jobj ((k, v) :: es), r, hsz, _ => by
      have hv := jsize_pos v
      have hs : jsize v + jsizeP es + 1 ≤ fuel := by
        simp [jsize, jsizeP] at hsz; omega
      have hinput : encJD (.jobj ((k, v) :: es)) ++ r
          = '\x7b' :: '"' :: ((k.data.map escChar).flatten ++ ('"' :: (':' :: ' ' ::
            (encJD v ++ (encPairsTail es ++ ('\x7d' :: r)))))) := by
        simp [encJD, encPairs, encStrD]
      rw [hinput, pVal_obj_step fuel _ _ (pStr_body k.data _)]
      exact pMember_enc fuel v es r hs

/-- The checker accepts `": value"` followed by the rest of an object
body. -/
theorem pMember_enc : (fuel : Nat) → (v : JValue) →
    (es : List (String × JValue)) → (r : List Char) →
    jsize v + jsizeP es + 1 ≤ fuel →
    pMember fuel
      (':' :: ' ' :: (encJD v ++ (encPairsTail es ++ ('\x7d' :: r)))) = some r
  | 0, v, es, r, hsz => by have := jsize_pos v; omega
  | fuel + 1, v, es, r, hsz => by
      obtain ⟨c, t, heq, hvs⟩ := encJD_cons v
      have hcs : ¬c = ' ' := (valueStart_props c hvs).2.2.2.1
      have hp := jsize_pos v
      have h1 : skipWS (':' :: ' ' :: (encJD v ++ (encPairsTail es ++ ('\x7d' :: r))))
          = ':' :: (' ' :: (encJD v ++ (encPairsTail es ++ ('\x7d' :: r)))) :=
        skipWS_cons_ne ':' _ (by decide)
      have h2 : skipWS (' ' :: (encJD v ++ (encPairsTail es ++ ('\x7d' :: r))))
          = encJD v ++ (encPairsTail es ++ ('\x7d' :: r)) := by
        rw [skipWS_space, heq, List.cons_append, skipWS_cons_ne c _ hcs]
      have hval : pVal fuel (encJD v ++ (encPairsTail es ++ ('\x7d' :: r)))
          = some (encPairsTail es ++ ('\x7d' :: r)) :=
        pVal_encJD fuel v _ (by omega) (notDigitStart_pairs es r)
      rw [pMember_step fuel _ _ _ h1 (by rw [h2]; exact hval)]
      exact pObjTail_enc fuel es r (by omega)

/-- The checker accepts the tail of an array body. -/
theorem pArrTail_encTail : (fuel : Nat) → (xs : List JValue) → (r : List Char) →
    jsizeL xs < fuel → pArrTail fuel (encItemsTail xs ++ (']' :: r)) = some r
  | 0, _, _, hsz => by omega
  | fuel + 1, [], r, _ => by
      simp only [encItemsTail, List.nil_append]
      exact pArrTail_rb fuel r
  | fuel + 1, x :: xs, r, hsz => by
      obtain ⟨c, t, heq, hvs⟩ := encJD_cons x
      have hcs : ¬c = ' ' := (valueStart_props c hvs).2.2.2.1
      have hx := jsize_pos x
      have hsx : jsize x ≤ fuel := by simp [jsizeL] at hsz; omega
      have hsl : jsizeL xs < fuel := by simp [jsizeL] at hsz; omega
      have hinput : encItemsTail (x :: xs) ++ (']' :: r)
          = ',' :: (' ' :: (encJD x ++ (encItemsTail xs ++ (']' :: r)))) := by
        simp [encItemsTail]
      have h2 : skipWS (' ' :: (encJD x ++ (encItemsTail xs ++ (']' :: r))))
          = encJD x ++ (encItemsTail xs ++ (']' :: r)) := by
        rw [skipWS_space, heq, List.cons_append, skipWS_cons_ne c _ hcs]
      have hval : pVal fuel (encJD x ++ (encItemsTail xs ++ (']' :: r)))
          = some (encItemsTail xs ++ (']' :: r)) :=
        pVal_encJD fuel x _ hsx (notDigitStart_items xs r)
      rw [hinput, pArrTail_step fuel _ _ (by rw [h2]; exact hval)]
      exact pArrTail_encTail fuel xs r hsl

/-- The checker accepts the tail of an object body. -/
theorem pObjTail_enc : (fuel : Nat) → (es : List (String × JValue)) →
    (r : List Char) →
    jsizeP es < fuel → pObjTail fuel (encPairsTail es ++ ('\x7d' :: r)) = some r
  | 0, _, _, hsz => by omega
  | fuel + 1, [], r, _ => by
      simp only [encPairsTail, List.nil_append]
      exact pObjTail_rb fuel r
  | fuel + 1, (k, v) :: es, r, hsz => by
      have hv := jsize_pos v
      have hs : jsize v + jsizeP es + 1 ≤ fuel := by simp [jsizeP] at hsz; omega
      have hinput : encPairsTail ((k, v) :: es) ++ ('\x7d' :: r)
          = ',' :: (' ' :: ('"' :: ((k.data.map escChar).flatten ++ ('"' :: (':' :: ' ' ::
            (encJD v ++ (encPairsTail es ++ ('\x7d' :: r)))))))) := by
        simp [encPairsTail, encStrD]
      have h1 : skipWS (' ' :: ('"' :: ((k.data.map escChar).flatten ++ ('"' :: (':' :: ' ' ::
            (encJD v ++ (encPairsTail es ++ ('\x7d' :: r))))))))
          = '"' :: ((k.data.map escChar).flatten ++ ('"' :: (':' :: ' ' ::
            (encJD v ++ (encPairsTail es ++ ('\x7d' :: r)))))) := by
        rw [skipWS_space, skipWS_cons_ne '"' _ (by decide)]
      rw [hinput, pObjTail_step fuel _ _ _ h1 (pStr_body k.data _)]
      exact pMember_enc fuel v es r hs

end

/-- C5: for every input composed only of primitives, sequences, mappings
and UUID values, `safe_serialize` runs to completion (it is a total
function of the model) and its output is valid JSON text. -/
theorem safe_serialize_valid (v : Value) (h : tame v = true) :
    isValidJson (safe_serialize v) = true := by
  have hj := jsize_le (resolve (remove_unwanted_items v))
  have hp := pVal_encJD ((encJD (resolve (remove_unwanted_items v))).length + 1)
      (resolve (remove_unwanted_items v)) [] (by omega) rfl
  simp only [List.append_nil] at hp
  show (match pVal ((safe_serialize v).data.length + 1) (safe_serialize v).data with
    | some [] => true
    | _ => false) = true
  have hd : (safe_serialize v).data = encJD (resolve (remove_unwanted_items v)) := rfl
  rw [hd, hp]

theorem safe_serialize_valid_witness :
    tame (.vDict [("a", .vList [.vInt (-12), .vUUID 3, .vStr "x y"]),
      ("b", .vBool true)]) = true ∧
    isValidJson (safe_serialize (.vDict [("a", .vList [.vInt (-12), .vUUID 3,
      .vStr "x y"]), ("b", .vBool true)])) = true :=
  ⟨rfl, safe_serialize_valid _ rfl⟩

end Helpers
